import Mathlib

/-!
Verification development for the MACH mission-validation pipeline.

Shallow embedding of:
* the MACH Entropy Algorithm (four lexical scorers and the composite
  `calculateEntropy`) from the worker module;
* `isVagueResponse` and the deck-card emission decision of `processMission`;
* `chunkText`, `isRepoIngested` and `ingestGitHubRepo` from the vector
  service;
* `traceIntent` from the Mach tracer.

Text is modelled as `List Char` (one entry per UTF-16 code unit of the
source's strings; all inputs of interest are ASCII).  Numeric work the
source performs on IEEE doubles is modelled exactly over `ℚ`; the two
genuinely external numeric primitives — `zlib` deflate (the compressed
byte length) and `Math.log2` (a correctly-rounded transcendental) — are
supplied as an explicit oracle structure `JsMath`, and theorems that
depend on their values constrain the oracle by rational bounds that the
true functions satisfy.
-/

namespace Mach

/-- JS `Math.round` on a (nonnegative) rational: round half toward +∞.
(`Rat.floor` is used rather than the `⌊⋅⌋` notation so that the kernel can
evaluate it on concrete inputs; they agree, see `jsRound_eq_floor`.) -/
def jsRound (q : ℚ) : ℤ := (q + 1/2).floor

/-- Computable `min` on ℚ (agrees with `min`, see `qmin_eq`). -/
def qmin (a b : ℚ) : ℚ := if a ≤ b then a else b

/-- Computable `max` on ℚ (agrees with `max`, see `qmax_eq`). -/
def qmax (a b : ℚ) : ℚ := if a ≤ b then b else a

/-- Source: `Math.max lo (Math.min hi x)` — the clamp the scorers apply. -/
def clampQ (lo hi x : ℚ) : ℚ := qmax lo (qmin hi x)

/-- JS `\s` (ASCII fragment): space, tab, LF, CR, VT, FF. -/
def jsIsSpace (c : Char) : Bool :=
  c = ' ' || c = '\t' || c = '\n' || c = '\r' || c = '\x0b' || c = '\x0c'

/-- JS `\d`. -/
def jsIsDigit (c : Char) : Bool := '0' ≤ c && c ≤ '9'

/-- JS `\w` = `[A-Za-z0-9_]`. -/
def jsIsWordChar (c : Char) : Bool :=
  ('a' ≤ c && c ≤ 'z') || ('A' ≤ c && c ≤ 'Z') || jsIsDigit c || c = '_'

def jsIsUpperAZ (c : Char) : Bool := 'A' ≤ c && c ≤ 'Z'

def jsIsLowerAZ (c : Char) : Bool := 'a' ≤ c && c ≤ 'z'

/-- ASCII fragment of JS `String.prototype.toLowerCase`, applied per char. -/
def jsToLower (c : Char) : Char :=
  if jsIsUpperAZ c then Char.ofNat (c.toNat + 32) else c

/-- ASCII fragment of JS `String.prototype.toUpperCase`, applied per char. -/
def jsToUpper (c : Char) : Char :=
  if jsIsLowerAZ c then Char.ofNat (c.toNat - 32) else c

/-- Source: `text.split(/\s+/).filter(Boolean)`: maximal runs of non-whitespace. -/
def splitWs : List Char → List (List Char)
  | [] => []
  | c :: rest =>
    if jsIsSpace c then splitWs rest
    else
      match splitWs rest with
      | [] => [[c]]
      | w :: ws =>
        match rest with
        | [] => [[c]]
        | d :: _ => if jsIsSpace d then [c] :: w :: ws else (c :: w) :: ws

/-- Source: `text.split("\n")` (keeps empty segments). -/
def splitNl : List Char → List (List Char)
  | [] => [[]]
  | c :: rest =>
    if c = '\n' then [] :: splitNl rest
    else
      match splitNl rest with
      | [] => [[c]]
      | l :: ls => (c :: l) :: ls

/-- Source: `chunks.join("\n")` / re-assembly of `split("\n")` segments. -/
def joinNl (ls : List (List Char)) : List Char := List.intercalate ['\n'] ls

/-- Substring test (`String.prototype.includes`). -/
def containsSub : List Char → List Char → Bool
  | s, pat =>
    pat.isPrefixOf s ||
      match s with
      | [] => false
      | _ :: rest => containsSub rest pat

/-- UTF-8 byte count of the text (`Buffer.from(text, "utf-8").length`). -/
def utf8Len (t : List Char) : ℕ := (t.map Char.utf8Size).sum

/-- Insertion-ordered character histogram (JS `Map` preserves insertion
order; only the multiset of counts matters downstream). -/
def bumpCount : List (Char × ℕ) → Char → List (Char × ℕ)
  | [], c => [(c, 1)]
  | (d, n) :: rest, c =>
    if d = c then (d, n + 1) :: rest else (d, n) :: bumpCount rest c

def charCounts (t : List Char) : List (Char × ℕ) := t.foldl bumpCount []

/-- External numeric primitives used by the scorers: the byte length of
`zlib.deflateSync` on the UTF-8 bytes of a text, and `Math.log2`. -/
structure JsMath where
  deflateLen : List Char → ℕ
  log2 : ℚ → ℚ

end Mach

namespace Mach

/-!
 ## A small backtracking regular-expression engine

Faithful to the JS semantics the scorers rely on: leftmost match wins,
alternation prefers the left branch, quantifiers are greedy, `\b` is a
word/non-word boundary, and with the `m` flag `^`/`$` match at line
boundaries.  `mrun` returns the list of possible `(last consumed char,
remaining suffix)` outcomes in priority order; the head is the match the
JS engine produces.
-/

inductive RE where
  | eps : RE
  | lit : Char → RE
  | cls : (Char → Bool) → RE
  | seq : RE → RE → RE
  | alt : RE → RE → RE
  | star : RE → RE
  | wb : RE
  | bol : RE
  | eol : RE

def isWordOpt : Option Char → Bool
  | none => false
  | some c => jsIsWordChar c

/-- Greedy iteration of a quantified sub-matcher.  Only iterations that
consumed at least one character are continued, so `s.length + 1` rounds
of fuel are always sufficient and the bound never truncates a match. -/
def starLoop (f : Option Char → List Char → List (Option Char × List Char)) :
    ℕ → Option Char → List Char → List (Option Char × List Char)
  | 0, prev, s => [(prev, s)]
  | fuel + 1, prev, s =>
    ((f prev s).filter fun pr => pr.2.length < s.length).flatMap
        (fun pr => starLoop f fuel pr.1 pr.2)
      ++ [(prev, s)]

def mrun : RE → Option Char → List Char → List (Option Char × List Char)
  | .eps, prev, s => [(prev, s)]
  | .lit c, _, s =>
    match s with
    | [] => []
    | x :: xs => if x = c then [(some x, xs)] else []
  | .cls f, _, s =>
    match s with
    | [] => []
    | x :: xs => if f x then [(some x, xs)] else []
  | .seq a b, prev, s => (mrun a prev s).flatMap fun pr => mrun b pr.1 pr.2
  | .alt a b, prev, s => mrun a prev s ++ mrun b prev s
  | .star r, prev, s => starLoop (mrun r) (s.length + 1) prev s
  | .wb, prev, s => if isWordOpt prev ≠ isWordOpt s.head? then [(prev, s)] else []
  | .bol, prev, s => if prev = none ∨ prev = some '\n' then [(prev, s)] else []
  | .eol, prev, s => if s.head? = none ∨ s.head? = some '\n' then [(prev, s)] else []

/-- One scan step per unit of fuel: take the engine's first match at the
current position, resume after it (JS advances `lastIndex` by one on an
empty match), else slide one character.  Every step either consumes at
least one character or terminates, so `s.length + 1` fuel is exact. -/
def countLoop (re : RE) : ℕ → Option Char → List Char → ℕ
  | 0, _, _ => 0
  | fuel + 1, prev, s =>
    match (mrun re prev s).head? with
    | some pr =>
      if pr.2.length < s.length then 1 + countLoop re fuel pr.1 pr.2
      else
        match s with
        | [] => 1
        | c :: rest => 1 + countLoop re fuel (some c) rest
    | none =>
      match s with
      | [] => 0
      | c :: rest => countLoop re fuel (some c) rest

/-- Count of global (`/g`) matches of the pattern over the text. -/
def countMatches (re : RE) (t : List Char) : ℕ :=
  countLoop re (t.length + 1) none t

/-- Encoding of `r+`. -/
def rplus (r : RE) : RE := .seq r (.star r)

/-- Encoding of `r?` (greedy). -/
def ropt (r : RE) : RE := .alt r .eps

/-- Literal character sequence. -/
def rlits (s : List Char) : RE := s.foldr (fun c acc => .seq (.lit c) acc) .eps

def rword (s : String) : RE := rlits s.toList

/-- Encoding of `(a|b|...)` — alternation in the given order. -/
def ralts : List RE → RE
  | [] => .eps
  | [r] => r
  | r :: rest => .alt r (ralts rest)

def rdigit : RE := .cls jsIsDigit

def rspace : RE := .cls jsIsSpace

end Mach

namespace Mach

/-!
 ## The entity / marker patterns of the two inverted scorers

Encodings of the exact regex literals in `calcSpecificityMass` and
`calcStructuralIntegrity`.  Patterns carrying the `i` flag are run on the
lower-cased text (their literals are lower-case ASCII, so this is
equivalent); the others run on the raw text.
-/

/-- Source: `/\d+(\.\d+)?(%|ms|s|px|rem|em|gb|mb|kb|k\b|\$)/gi` -/
def reNumUnit : RE :=
  .seq (rplus rdigit)
    (.seq (ropt (.seq (.lit '.') (rplus rdigit)))
      (ralts [rword "%", rword "ms", rword "s", rword "px", rword "rem",
              rword "em", rword "gb", rword "mb", rword "kb",
              .seq (.lit 'k') .wb, rword "$"]))

/-- Source: `/\b\d{2,}\b/g` -/
def reBareNum : RE := .seq .wb (.seq rdigit (.seq rdigit (.seq (.star rdigit) .wb)))

/-- Source: `/[\w-]+\.(ts|js|tsx|jsx|py|rs|go|sql|json|yaml|yml|md|css|html)/g` -/
def reFileExt : RE :=
  .seq (rplus (.cls fun c => jsIsWordChar c || c = '-'))
    (.seq (.lit '.')
      (ralts (["ts", "js", "tsx", "jsx", "py", "rs", "go", "sql", "json",
               "yaml", "yml", "md", "css", "html"].map rword)))

/-- Source: `/(?:src|lib|api|routes|components|pages|hooks)\//g` -/
def rePathTok : RE :=
  .seq (ralts (["src", "lib", "api", "routes", "components", "pages",
                "hooks"].map rword))
    (.lit '/')

/-- Source: `/\b(react|…|cloudflare)\b/gi` — the fixed technology vocabulary. -/
def reTech : RE :=
  .seq .wb
    (.seq (ralts (["react", "vue", "angular", "svelte", "next", "nuxt",
                   "express", "fastify", "postgres", "postgresql", "mysql",
                   "mongodb", "redis", "docker", "kubernetes", "k8s", "aws",
                   "gcp", "azure", "supabase", "firebase", "graphql", "rest",
                   "jwt", "oauth", "websocket", "sse", "grpc", "typescript",
                   "python", "rust", "golang", "node", "deno", "bun", "vite",
                   "webpack", "tailwind", "prisma", "drizzle", "stripe",
                   "twilio", "sendgrid", "vercel", "netlify",
                   "cloudflare"].map rword))
      .wb)

/-- Source: `/\b(must|shall|should not|must not|at least|at most|no more than|within \d|maximum|minimum|latency|throughput|uptime)\b/gi` -/
def reConstraint : RE :=
  .seq .wb
    (.seq (ralts [rword "must", rword "shall", rword "should not",
                  rword "must not", rword "at least", rword "at most",
                  rword "no more than", .seq (rword "within ") rdigit,
                  rword "maximum", rword "minimum", rword "latency",
                  rword "throughput", rword "uptime"])
      .wb)

/-- Source: `/^\s*\d+[.)]\s/gm` — numbered-list lines. -/
def reNumbered : RE :=
  .seq .bol (.seq (.star rspace)
    (.seq (rplus rdigit) (.seq (.cls fun c => c = '.' || c = ')') rspace)))

/-- Source: `/^\s*[-*]\s/gm` — bullet lines. -/
def reBullet : RE :=
  .seq .bol (.seq (.star rspace) (.seq (.cls fun c => c = '-' || c = '*') rspace))

/-- Source: `/^\s*#{1,4}\s/gm` — markdown-style header lines. -/
def reHeader : RE :=
  .seq .bol (.seq (.star rspace)
    (.seq (.lit '#')
      (.seq (ropt (.seq (.lit '#') (ropt (.seq (.lit '#') (ropt (.lit '#'))))))
        rspace)))

/-- Source: `/^[A-Z][A-Z\s]{5,}$/gm` — ALL CAPS lines. -/
def reCapsLine : RE :=
  .seq .bol
    (.seq (.cls jsIsUpperAZ)
      (.seq (.cls fun c => jsIsUpperAZ c || jsIsSpace c)
        (.seq (.cls fun c => jsIsUpperAZ c || jsIsSpace c)
          (.seq (.cls fun c => jsIsUpperAZ c || jsIsSpace c)
            (.seq (.cls fun c => jsIsUpperAZ c || jsIsSpace c)
              (.seq (.cls fun c => jsIsUpperAZ c || jsIsSpace c)
                (.seq (.star (.cls fun c => jsIsUpperAZ c || jsIsSpace c))
                  .eol)))))))

/-- Source: `/\b(if|when|unless|otherwise|else|then|given that)\b/gi` -/
def reConditional : RE :=
  .seq .wb
    (.seq (ralts (["if", "when", "unless", "otherwise", "else", "then",
                   "given that"].map rword))
      .wb)

/-- Source: `/\b(phase|sprint|week|day|milestone|deadline|timeline|by \w+day)\b/gi` -/
def reTimeline : RE :=
  .seq .wb
    (.seq (ralts [rword "phase", rword "sprint", rword "week", rword "day",
                  rword "milestone", rword "deadline", rword "timeline",
                  .seq (rword "by ") (.seq (rplus (.cls jsIsWordChar)) (rword "day"))])
      .wb)

end Mach

namespace Mach

/-!
 ## The MACH Entropy Algorithm (MEA)
-/

/-- Vector 1 — `calcCompressionRatio`: deflate-compressibility of the
UTF-8 bytes, scaled by 125 and clamped.  `Math.round(n/d)`-style double
arithmetic is modelled exactly over `ℚ`. -/
def calcCompressionRatio (m : JsMath) (t : List Char) : ℕ :=
  if t.length < 10 then 80
  else
    let raw : ℚ := utf8Len t
    let compressed : ℚ := m.deflateLen t
    let ratio : ℚ := 1 - compressed / raw
    (jsRound (clampQ 0 100 (ratio * 125))).toNat

/-- Vector 2 — `calcAmbiguityDensity`: Shannon entropy of the lower-cased
character histogram, mapped by `(5.0 - H) * 50` and clamped. -/
def calcAmbiguityDensity (m : JsMath) (t : List Char) : ℕ :=
  if t.length < 5 then 80
  else
    let lower := t.map jsToLower
    let len : ℚ := lower.length
    let shannonH : ℚ :=
      ((charCounts lower).map fun pr =>
        let p : ℚ := (pr.2 : ℚ) / len
        if 0 < p then -(p * m.log2 p) else 0).sum
    (jsRound (clampQ 0 100 ((5 - shannonH) * 50))).toNat

/-- Vector 3 — `calcSpecificityMass`: density of "hard entity" pattern
matches per word, inverted by `(0.15 - density) * 667` and clamped. -/
def calcSpecificityMass (t : List Char) : ℕ :=
  let words := splitWs t
  if words.length = 0 then 100
  else
    let lower := t.map jsToLower
    let entityCount : ℕ :=
      countMatches reNumUnit lower + countMatches reBareNum t +
        countMatches reFileExt t + countMatches rePathTok t +
        countMatches reTech lower + countMatches reConstraint lower
    let density : ℚ := (entityCount : ℚ) / (words.length : ℚ)
    (jsRound (clampQ 0 100 ((15/100 - density) * 667))).toNat

/-- Vector 4 — `calcStructuralIntegrity`: density of structural markers
against one expected marker per 30 words, inverted and clamped. -/
def calcStructuralIntegrity (t : List Char) : ℕ :=
  let words := splitWs t
  if words.length < 10 then 70
  else
    let lower := t.map jsToLower
    let markers : ℕ :=
      countMatches reNumbered t + countMatches reBullet t +
        countMatches reHeader t + countMatches reCapsLine t +
        countMatches reConditional lower + countMatches reTimeline lower
    let expected : ℚ := qmax 3 ((words.length : ℚ) / 30)
    let ratio : ℚ := (markers : ℚ) / expected
    (jsRound (clampQ 0 100 ((1 - ratio) * 100))).toNat

inductive FlightStatus where
  | approved
  | turbulent
  | rejected
deriving DecidableEq, Repr

inductive FlightLabel where
  | mach1
  | laminar
  | turbulent
  | pureChaos
deriving DecidableEq, Repr

structure EntropyVectors where
  compressionRatio : ℕ
  ambiguityDensity : ℕ
  specificityMass : ℕ
  structuralIntegrity : ℕ
deriving DecidableEq, Repr

structure MEAResult where
  entropyScore : ℕ
  vectors : EntropyVectors
  flightStatus : FlightStatus
  flightLabel : FlightLabel
  confidence : ℚ
deriving DecidableEq, Repr

/-- The tier `if`-chain of `calculateEntropy` (status component). -/
def classifyStatus (score : ℕ) : FlightStatus :=
  if score ≤ 15 then .approved
  else if score ≤ 45 then .approved
  else if score ≤ 75 then .turbulent
  else .rejected

/-- The tier `if`-chain of `calculateEntropy` (label component). -/
def classifyLabel (score : ℕ) : FlightLabel :=
  if score ≤ 15 then .mach1
  else if score ≤ 45 then .laminar
  else if score ≤ 75 then .turbulent
  else .pureChaos

/-- Source: `calculateEntropy`: weighted composite of the four vectors.  For
integers `0 ≤ n ≤ 10000` the double `Math.round(n / 100)` is exactly
`⌊(n + 50) / 100⌋` (the relevant halves are exact doubles), which is the
natural-division form used here; the equivalence with `jsRound` over `ℚ`
is proved below. -/
def calculateEntropy (m : JsMath) (t : List Char) : MEAResult :=
  let rho := calcCompressionRatio m t
  let sigma := calcAmbiguityDensity m t
  let mu := calcSpecificityMass t
  let piV := calcStructuralIntegrity t
  let entropyScore := (30 * rho + 15 * sigma + 40 * mu + 15 * piV + 50) / 100
  { entropyScore := entropyScore
    vectors := { compressionRatio := rho, ambiguityDensity := sigma,
                 specificityMass := mu, structuralIntegrity := piV }
    flightStatus := classifyStatus entropyScore
    flightLabel := classifyLabel entropyScore
    confidence := clampQ 0 1 ((100 - (entropyScore : ℚ)) / 100) }

/-- The marker list of `isVagueResponse`. -/
def vagueMarkers : List (List Char) :=
  ["AWAITING MISSION BRIEF", "REQUIRED INTEL", "MISSION SCRUBBED",
   "cannot proceed without", "please provide more",
   "resubmit with"].map String.toList

/-- Source: `isVagueResponse`: case-insensitive scan of the generated plan for
the hard-coded vague markers. -/
def isVagueResponse (flightPlan : List Char) : Bool :=
  vagueMarkers.any fun mk =>
    containsSub (flightPlan.map jsToUpper) (mk.map jsToUpper)

/-!
 ## The persistence decisions of `processMission`

After generation succeeds, the worker computes
`effectiveStatus = isVagueResponse(flightPlan) ? "turbulent" : mea.flightStatus`
(and the label likewise) and creates a deck card only when the effective
status is not turbulent *and* the mission's `owner_id` was resolved.
-/

def effectiveStatus (meaStatus : FlightStatus) (vague : Bool) : FlightStatus :=
  if vague then .turbulent else meaStatus

def effectiveLabel (meaLabel : FlightLabel) (vague : Bool) : FlightLabel :=
  if vague then .turbulent else meaLabel

/-- Whether `processMission` reaches `generateDeckCards` on the success
path: skipped for turbulent effective status, and skipped when no
`owner_id` is known. -/
def deckCardEmitted (eff : FlightStatus) (ownerPresent : Bool) : Bool :=
  !(eff = .turbulent) && ownerPresent

end Mach

namespace Mach

/-!
 ## `chunkText` — newline-respecting chunking of the vector service
-/

/-- The accumulation loop of `chunkText`: greedily extend `current` with
the next line (joined by `"\n"`) unless that would exceed `maxChars` and
`current` is nonempty, in which case `current` is flushed; a final
nonempty `current` is flushed at the end. -/
def chunkCore (maxChars : ℕ) : List (List Char) → List Char → List (List Char)
  | [], current => if current.isEmpty then [] else [current]
  | line :: rest, current =>
    if maxChars < current.length + line.length + 1 ∧ 0 < current.length then
      current :: chunkCore maxChars rest line
    else
      chunkCore maxChars rest
        (current ++ (if current.isEmpty then [] else ['\n']) ++ line)

/-- Source: `chunkText(text, maxChars)`: texts not exceeding the budget are one
chunk; otherwise lines are greedily grouped. -/
def chunkText (text : List Char) (maxChars : ℕ) : List (List Char) :=
  if text.length ≤ maxChars then [text]
  else chunkCore maxChars (splitNl text) []

/-!
 ## The vector service — repo ingestion state machine

`embedAndStore`/`addDocuments`, the Supabase dedup query, the GitHub tree
and content fetches are external collaborators; an `IngestEnv` fixes their
outcomes for one call, and `IngestState` tracks the store contents plus
how many times each collaborator was invoked.
-/

inductive ChunkType where
  | code
  | doc
  | tribal
deriving DecidableEq, Repr

/-- A stored vector chunk (`content` plus the metadata the service tags). -/
structure VectorChunk where
  content : List Char
  ctype : ChunkType
  filePath : Option (List Char)
  repo : Option (List Char)
deriving DecidableEq, Repr

/-- One entry of the GitHub tree response. -/
structure TreeEntry where
  path : List Char
  entryType : List Char
  size : Option ℕ
deriving DecidableEq, Repr

/-- Outcomes of the external collaborators for one `ingestGitHubRepo`
call: whether the Supabase dedup `select` errors, the tree fetch result,
per-path file contents (`none` = failed fetch or no content, tolerated),
and the README fetch result. -/
structure IngestEnv where
  dedupQueryError : Bool
  tree : Except Unit (List TreeEntry)
  fileContent : List Char → Option (List Char)
  readme : Option (List Char)

/-- Store contents plus collaborator call counters. -/
structure IngestState where
  store : List VectorChunk
  embedCalls : ℕ
  treeFetches : ℕ
  fileFetches : ℕ
deriving DecidableEq, Repr

/-- Source: `isRepoIngested(repoPrefix)`: any stored chunk whose metadata `repo`
equals the prefix; a query error logs and returns `false`. -/
def isRepoIngested (store : List VectorChunk) (repoKey : List Char)
    (queryError : Bool) : Bool :=
  if queryError then false else store.any fun c => c.repo = some repoKey

/-- First match of `/github\.com\/([^/]+)\/([^/\s#?]+)/` starting at the
current position: group 1 is the maximal nonempty run without `/`, then a
literal `/`, then group 2 is a maximal nonempty run without `/`,
whitespace, `#` or `?`. -/
def ghTry (rest : List Char) : Option (List Char × List Char) :=
  let g1 := rest.takeWhile (· ≠ '/')
  if g1.isEmpty then none
  else
    match rest.drop g1.length with
    | '/' :: r2 =>
      let g2 := r2.takeWhile fun c => ¬(c = '/' ∨ jsIsSpace c ∨ c = '#' ∨ c = '?')
      if g2.isEmpty then none else some (g1, g2)
    | _ => none

/-- Source: `repoUrl.match(/github\.com\/([^/]+)\/([^/\s#?]+)/)`: scan for the
literal `github.com/`, then capture the two groups; on failure resume the
scan one character later, as the JS engine does. -/
def parseGitHubUrl : List Char → Option (List Char × List Char)
  | [] => none
  | c :: rest =>
    if ("github.com/".toList).isPrefixOf (c :: rest) then
      match ghTry ((c :: rest).drop ("github.com/".toList).length) with
      | some r => some r
      | none => parseGitHubUrl rest
    else parseGitHubUrl rest

/-- Source: `repo.replace(/\.git$/, "")`. -/
def stripGitSuffix (repo : List Char) : List Char :=
  if (".git".toList).isSuffixOf repo then repo.take (repo.length - 4) else repo

/-- Source: `/\.(ts|tsx|js|jsx|py|rs|go|sql|md|json|yaml|yml|toml|env\.example)$/`
as the equivalent suffix test. -/
def relevantExtOk (path : List Char) : Bool :=
  [".ts", ".tsx", ".js", ".jsx", ".py", ".rs", ".go", ".sql", ".md",
   ".json", ".yaml", ".yml", ".toml", ".env.example"].any
    fun e => e.toList.isSuffixOf path

/-- Source: `/node_modules|dist|build|\.git|vendor|__pycache__|\.next/` as the
equivalent substring test. -/
def skipPath (path : List Char) : Bool :=
  ["node_modules", "dist", "build", ".git", "vendor", "__pycache__",
   ".next"].any fun e => containsSub path e.toList

/-- The tree filter of `ingestGitHubRepo`: blobs with a relevant
extension, not under a skipped directory, smaller than 100 KB. -/
def fileFilter (f : TreeEntry) : Bool :=
  f.entryType = "blob".toList && relevantExtOk f.path && !skipPath f.path &&
    f.size.getD 0 < 100000

/-- Chunks contributed by one fetched file (content prefixed by
`File: <path>\n\n`, tagged `code` with the file path and repo key). -/
def fileChunks (repoKey path content : List Char) : List VectorChunk :=
  (chunkText content 2000).map fun ch =>
    { content := "File: ".toList ++ path ++ '\n' :: '\n' :: ch
      ctype := .code
      filePath := some path
      repo := some repoKey }

/-- Chunks contributed by the README (tagged `doc`). -/
def readmeChunks (repoKey content : List Char) : List VectorChunk :=
  (chunkText content 2000).map fun ch =>
    { content := "README.md".toList ++ '\n' :: '\n' :: ch
      ctype := .doc
      filePath := some ("README.md".toList)
      repo := some repoKey }

/-- Source: `ingestGitHubRepo(repoUrl)` as a state transition.  Batches of five
concurrent file fetches resolve fully, in order, before the next batch,
so the resulting chunk list is the in-order concatenation used here.
`embedAndStore` is called exactly once, only when the chunk list is
nonempty. -/
def ingestGitHubRepo (env : IngestEnv) (repoUrl : List Char)
    (st : IngestState) : IngestState :=
  match parseGitHubUrl repoUrl with
  | none => st
  | some (owner, repo) =>
    let repoKey := owner ++ '/' :: stripGitSuffix repo
    if isRepoIngested st.store repoKey env.dedupQueryError then st
    else
      let st1 := { st with treeFetches := st.treeFetches + 1 }
      match env.tree with
      | .error _ => st1
      | .ok entries =>
        let files := (entries.filter fileFilter).take 50
        let st2 := { st1 with fileFetches := st1.fileFetches + files.length }
        let codeChunks := files.flatMap fun f =>
          match env.fileContent f.path with
          | none => []
          | some content => fileChunks repoKey f.path content
        let docChunks :=
          match env.readme with
          | none => []
          | some content => readmeChunks repoKey content
        let chunks := codeChunks ++ docChunks
        if chunks.isEmpty then st2
        else { st2 with store := st2.store ++ chunks,
                        embedCalls := st2.embedCalls + 1 }

end Mach

namespace Mach

/-!
 ## Mach-Trace — `traceIntent`

The LLM invocations, the vector searches and `JSON.parse` are external
collaborators whose outcomes a `TraceEnv` fixes (`Except.error` models a
thrown exception).  The auditor system prompt of the source is a fixed
long literal, so its `=== "REPLACE_ME"` guard is statically false.
-/

structure CollisionContext where
  source : List Char
  snippet : List Char
  reason : List Char
deriving DecidableEq, Repr

inductive TraceResult where
  | clean
  | collision (ctx : CollisionContext)
deriving DecidableEq, Repr

/-- The shape `JSON.parse` hands back for the auditor reply, restricted
to the four fields the parser reads (`none` = absent; the source's
truthiness test makes the empty string count as absent too). -/
structure AuditFields where
  status : Option (List Char)
  source : Option (List Char)
  snippet : Option (List Char)
  reason : Option (List Char)
deriving DecidableEq, Repr

/-- Collaborator outcomes for one `traceIntent` call. -/
structure TraceEnv where
  probe : Except Unit (List VectorChunk)
  entityResp : Except Unit (List Char)
  entityJson : List Char → Except Unit (List (List Char))
  codeSearch : Except Unit (List VectorChunk)
  docSearch : Except Unit (List VectorChunk)
  auditorResp : Except Unit (List Char)
  auditJson : List Char → Except Unit AuditFields

/-- JS truthiness of an optional string field. -/
def truthyStr : Option (List Char) → Bool
  | none => false
  | some s => !s.isEmpty

/-- Source: `text.match(/\{[\s\S]*\}/)` (and the analogous `/\[[\s\S]*\]/`): the
substring from the first opening delimiter through the last closing
delimiter after it, if any. -/
def spanMatch (opening closing : Char) (t : List Char) : Option (List Char) :=
  let pre := t.takeWhile (· ≠ opening)
  let rest := t.drop pre.length
  match rest with
  | [] => none
  | _ :: _ =>
    let tailPart := rest.reverse.takeWhile (· ≠ closing)
    if tailPart.length = rest.length then none
    else
      let cand := rest.take (rest.length - tailPart.length)
      if 2 ≤ cand.length then some cand else none

/-- Source: `extractEntities`: LLM call, bracket extraction, `JSON.parse`; any
exception is caught inside and degrades to the word heuristic (words
longer than three characters, first ten). -/
def extractEntities (env : TraceEnv) (objective : List Char) : List (List Char) :=
  let fallback := ((splitWs objective).filter fun w => 3 < w.length).take 10
  match env.entityResp with
  | .error _ => fallback
  | .ok text =>
    match spanMatch '[' ']' text with
    | none => []
    | some sub =>
      match env.entityJson sub with
      | .error _ => fallback
      | .ok entities => entities

/-- Source: `parseAuditorResponse`: brace extraction, `JSON.parse`, then the
`status === "COLLISION" && source && snippet && reason` check; every
failure path returns CLEAN. -/
def parseAuditorResponse (env : TraceEnv) (text : List Char) : TraceResult :=
  match spanMatch '{' '}' text with
  | none => .clean
  | some sub =>
    match env.auditJson sub with
    | .error _ => .clean
    | .ok p =>
      if p.status = some ("COLLISION".toList) ∧ truthyStr p.source ∧
          truthyStr p.snippet ∧ truthyStr p.reason then
        .collision { source := p.source.getD [], snippet := p.snippet.getD [],
                     reason := p.reason.getD [] }
      else .clean

/-- Source: `checkVectorStoreHasData`: a `k = 1` probe search; exceptions are
caught and count as no data. -/
def checkVectorStoreHasData (env : TraceEnv) : Bool :=
  match env.probe with
  | .error _ => false
  | .ok rs => !rs.isEmpty

/-- Source: `traceIntent(objective)`: pass-through guard, entity extraction, the
two parallel searches, the non-empty-context guard, the auditor call and
response parsing; any exception inside the `try` returns CLEAN. -/
def traceIntent (env : TraceEnv) (objective : List Char) : TraceResult :=
  if !checkVectorStoreHasData env then .clean
  else
    let _entities := extractEntities env objective
    match env.codeSearch with
    | .error _ => .clean
    | .ok codeRs =>
      match env.docSearch with
      | .error _ => .clean
      | .ok docRs =>
        if codeRs.isEmpty ∧ docRs.isEmpty then .clean
        else
          match env.auditorResp with
          | .error _ => .clean
          | .ok text => parseAuditorResponse env text

end Mach

namespace Mach

/-!
 ## Concrete instances used by the closed theorems below
-/

/-- The end-to-end scenario objective of the spec. -/
def btObjective : List Char := "Build a thing".toList

/-- The real collaborator values at `btObjective`:
`zlib.deflateSync(Buffer.from("Build a thing"))` has 21 bytes (deflate at
the default level 6), and `Math.log2(1/13) = -3.70043…`,
`Math.log2(2/13) = -2.70043…`, here as rational approximations accurate
to `10⁻⁴`. -/
def jsMathActual : JsMath where
  deflateLen := fun _ => 21
  log2 := fun q =>
    if q = 1/13 then -(37004/10000)
    else if q = 2/13 then -(27004/10000)
    else 0

/-- A generated plan carrying a vague marker in mixed case. -/
def planScrubbed : List Char := "Status update: Mission scrubbed, awaiting data".toList

/-- A generated plan with no vague marker. -/
def planPlain : List Char := "Deploy the service and add the index".toList

/-- A stored chunk used as a nonempty search result. -/
def probeChunk : VectorChunk :=
  { content := "c".toList, ctype := .code, filePath := none, repo := none }

/-- Environment in which the entity-extraction LLM call throws but the
adjudication succeeds with a full COLLISION verdict. -/
def traceEnvEntityThrow : TraceEnv where
  probe := .ok [probeChunk]
  entityResp := .error ()
  entityJson := fun _ => .error ()
  codeSearch := .ok [probeChunk]
  docSearch := .ok []
  auditorResp := .ok ("\x7b \"status\": \"COLLISION\" \x7d".toList)
  auditJson := fun _ =>
    .ok { status := some ("COLLISION".toList), source := some ("a.ts".toList),
          snippet := some ("x".toList), reason := some ("dup".toList) }

/-- Environment with an empty vector store (the probe search returns no
chunks). -/
def traceEnvEmptyStore : TraceEnv where
  probe := .ok []
  entityResp := .ok []
  entityJson := fun _ => .error ()
  codeSearch := .ok [probeChunk]
  docSearch := .ok [probeChunk]
  auditorResp := .ok []
  auditJson := fun _ => .error ()

/-- Environment in which the code-side similarity search throws. -/
def traceEnvSearchThrow : TraceEnv where
  probe := .ok [probeChunk]
  entityResp := .ok []
  entityJson := fun _ => .error ()
  codeSearch := .error ()
  docSearch := .ok [probeChunk]
  auditorResp := .ok []
  auditJson := fun _ => .error ()

/-- Environment in which the adjudication call throws. -/
def traceEnvAuditorThrow : TraceEnv where
  probe := .ok [probeChunk]
  entityResp := .ok []
  entityJson := fun _ => .error ()
  codeSearch := .ok [probeChunk]
  docSearch := .ok []
  auditorResp := .error ()
  auditJson := fun _ => .error ()

/-- Environment in which the auditor replies, but the parsed object lacks
the `snippet` field (so the COLLISION check must fall back to CLEAN). -/
def traceEnvMissingField : TraceEnv where
  probe := .ok [probeChunk]
  entityResp := .ok []
  entityJson := fun _ => .error ()
  codeSearch := .ok [probeChunk]
  docSearch := .ok []
  auditorResp := .ok ("\x7b \"status\": \"COLLISION\" \x7d".toList)
  auditJson := fun _ =>
    .ok { status := some ("COLLISION".toList), source := some ("a.ts".toList),
          snippet := none, reason := some ("dup".toList) }

/-- Environment in which the auditor reply contains no brace-delimited
JSON object at all. -/
def traceEnvNoJson : TraceEnv where
  probe := .ok [probeChunk]
  entityResp := .ok []
  entityJson := fun _ => .error ()
  codeSearch := .ok [probeChunk]
  docSearch := .ok []
  auditorResp := .ok ("plain prose, no json".toList)
  auditJson := fun _ => .error ()

/-- A GitHub repository URL and a non-GitHub URL. -/
def ghUrl : List Char := "https://github.com/o/r".toList

def nonGhUrl : List Char := "https://gitlab.com/o/r".toList

/-- Ingestion environment: one relevant file, fetch succeeds. -/
def ingestEnvOk : IngestEnv where
  dedupQueryError := false
  tree := .ok [{ path := "a.ts".toList, entryType := "blob".toList, size := some 10 }]
  fileContent := fun _ => some ("x".toList)
  readme := none

/-- The same collaborators, but the dedup `select` errors. -/
def ingestEnvDedupError : IngestEnv where
  dedupQueryError := true
  tree := .ok [{ path := "a.ts".toList, entryType := "blob".toList, size := some 10 }]
  fileContent := fun _ => some ("x".toList)
  readme := none

/-- Empty initial ingestion state. -/
def ingestSt0 : IngestState where
  store := []
  embedCalls := 0
  treeFetches := 0
  fileFetches := 0

/-- The C6 witness text: 73 lines of 136 `x`s, 10,000 characters in all. -/
def chunkWitnessText : List Char :=
  joinNl (List.replicate 73 (List.replicate 136 'x'))

/-- One 10,000-character line with no newline at all. -/
def longLineText : List Char := List.replicate 10000 'a'

end Mach

namespace Mach

/-!
 ## Helper lemmas
-/

theorem qmin_eq (a b : ℚ) : qmin a b = min a b := by
  rw [qmin, min_def]

theorem qmax_eq (a b : ℚ) : qmax a b = max a b := by
  rw [qmax, max_def]

theorem jsRound_eq_floor (q : ℚ) : jsRound q = ⌊q + 1/2⌋ := by
  rw [jsRound, Rat.floor_def', Rat.floor_def]

theorem clampQ_of_mem {lo hi x : ℚ} (h0 : lo ≤ x) (h1 : x ≤ hi) :
    clampQ lo hi x = x := by
  unfold clampQ qmax qmin
  split_ifs <;> linarith

theorem clampQ_mem {lo hi : ℚ} (x : ℚ) (h : lo ≤ hi) :
    lo ≤ clampQ lo hi x ∧ clampQ lo hi x ≤ hi := by
  unfold clampQ qmax qmin
  split_ifs <;> constructor <;> linarith

theorem jsRound_le_of_le {x : ℚ} {C : ℕ} (hx : x ≤ C) : jsRound x ≤ C := by
  rw [jsRound_eq_floor]
  have h1 : x + 1/2 < ((C : ℤ) : ℚ) + 1 := by push_cast; linarith
  have h2 : ⌊x + 1/2⌋ < (C : ℤ) + 1 := Int.floor_lt.mpr (by exact_mod_cast h1)
  omega

theorem jsRound_nonneg_of_nonneg {x : ℚ} (hx : 0 ≤ x) : 0 ≤ jsRound x := by
  rw [jsRound_eq_floor]
  have : (0 : ℚ) ≤ x + 1/2 := by linarith
  exact Int.floor_nonneg.mpr this

/-- The scorers' clamp-then-round always lands in `[0, C]`. -/
theorem toNat_jsRound_clamp_le (C : ℕ) (x : ℚ) :
    (jsRound (clampQ 0 C x)).toNat ≤ C := by
  have hm := @clampQ_mem 0 (C : ℚ) x (by positivity)
  have := @jsRound_le_of_le (clampQ 0 (C : ℚ) x) C hm.2
  omega

theorem calcCompressionRatio_le (m : JsMath) (t : List Char) :
    calcCompressionRatio m t ≤ 100 := by
  unfold calcCompressionRatio
  split
  · norm_num
  · exact toNat_jsRound_clamp_le 100 _

theorem calcAmbiguityDensity_le (m : JsMath) (t : List Char) :
    calcAmbiguityDensity m t ≤ 100 := by
  unfold calcAmbiguityDensity
  split
  · norm_num
  · exact toNat_jsRound_clamp_le 100 _

theorem calcSpecificityMass_le (t : List Char) :
    calcSpecificityMass t ≤ 100 := by
  unfold calcSpecificityMass
  dsimp only
  split
  · norm_num
  · exact toNat_jsRound_clamp_le 100 _

theorem calcStructuralIntegrity_le (t : List Char) :
    calcStructuralIntegrity t ≤ 100 := by
  unfold calcStructuralIntegrity
  dsimp only
  split
  · norm_num
  · exact toNat_jsRound_clamp_le 100 _

theorem entropyScore_le (m : JsMath) (t : List Char) :
    (calculateEntropy m t).entropyScore ≤ 100 := by
  have h1 := calcCompressionRatio_le m t
  have h2 := calcAmbiguityDensity_le m t
  have h3 := calcSpecificityMass_le t
  have h4 := calcStructuralIntegrity_le t
  show (30 * calcCompressionRatio m t + 15 * calcAmbiguityDensity m t +
      40 * calcSpecificityMass t + 15 * calcStructuralIntegrity t + 50) / 100 ≤ 100
  omega

/-- Source: `Math.round(n/100)` for a natural `n` is natural division of `n + 50`. -/
theorem jsRound_div100 (n : ℕ) :
    jsRound ((n : ℚ) / 100) = ((n + 50) / 100 : ℕ) := by
  rw [jsRound_eq_floor]
  have h1 : (n : ℚ) / 100 + 1/2 = (((2 * n + 100 : ℕ) : ℤ) : ℚ) / ((200 : ℕ) : ℚ) := by
    push_cast
    ring
  rw [h1, Rat.floor_intCast_div_natCast]
  have h2 : ((2 * n + 100 : ℕ) : ℤ) / ((200 : ℕ) : ℤ) = (((2 * n + 100) / 200 : ℕ) : ℤ) :=
    (Int.natCast_div (2 * n + 100) 200).symm
  rw [h2]
  have h3 : (2 * n + 100) / 200 = (n + 50) / 100 := by omega
  exact_mod_cast congrArg (Nat.cast : ℕ → ℤ) h3

end Mach

namespace Mach

/-!
 ## C1, C2, C8 — the entropy composer and scorer contracts
-/

/-- C1: for every text, `calculateEntropy` scores by the fixed weighted
average `round((30ρ + 15σ + 40μ + 15π)/100)` of the four scorer outputs,
derives `confidence = (100 - entropyScore)/100`, and classifies by the
exact tier chain, whose boundaries are `15 / 45 / 75`: 15 → MACH-1,
16 → LAMINAR, 45 → LAMINAR, 46 → TURBULENT, 75 → TURBULENT,
76 → PURE CHAOS. -/
theorem calculateEntropy_spec (m : JsMath) (t : List Char) :
    ((calculateEntropy m t).entropyScore : ℤ) =
      jsRound ((30 * (calcCompressionRatio m t : ℚ) +
        15 * (calcAmbiguityDensity m t : ℚ) + 40 * (calcSpecificityMass t : ℚ) +
        15 * (calcStructuralIntegrity t : ℚ)) / 100) ∧
    (calculateEntropy m t).confidence =
      (100 - ((calculateEntropy m t).entropyScore : ℚ)) / 100 ∧
    (calculateEntropy m t).flightStatus =
      classifyStatus (calculateEntropy m t).entropyScore ∧
    (calculateEntropy m t).flightLabel =
      classifyLabel (calculateEntropy m t).entropyScore ∧
    (classifyLabel 15 = .mach1 ∧ classifyStatus 15 = .approved) ∧
    (classifyLabel 16 = .laminar ∧ classifyStatus 16 = .approved) ∧
    (classifyLabel 45 = .laminar ∧ classifyStatus 45 = .approved) ∧
    (classifyLabel 46 = .turbulent ∧ classifyStatus 46 = .turbulent) ∧
    (classifyLabel 75 = .turbulent ∧ classifyStatus 75 = .turbulent) ∧
    (classifyLabel 76 = .pureChaos ∧ classifyStatus 76 = .rejected) := by
  refine ⟨?_, ?_, rfl, rfl, by decide, by decide, by decide, by decide,
    by decide, by decide⟩
  · have hcast : (30 * (calcCompressionRatio m t : ℚ) +
        15 * (calcAmbiguityDensity m t : ℚ) + 40 * (calcSpecificityMass t : ℚ) +
        15 * (calcStructuralIntegrity t : ℚ)) / 100 =
        ((30 * calcCompressionRatio m t + 15 * calcAmbiguityDensity m t +
          40 * calcSpecificityMass t + 15 * calcStructuralIntegrity t : ℕ) : ℚ) / 100 := by
      push_cast
      ring
    rw [hcast, jsRound_div100]
    rfl
  · have hle := entropyScore_le m t
    show clampQ 0 1 ((100 - ((calculateEntropy m t).entropyScore : ℚ)) / 100) = _
    refine clampQ_of_mem ?_ ?_
    · have : ((calculateEntropy m t).entropyScore : ℚ) ≤ 100 := by exact_mod_cast hle
      linarith
    · have : (0 : ℚ) ≤ ((calculateEntropy m t).entropyScore : ℚ) := by positivity
      linarith

/-- C2: `calculateEntropy` is total, its composite score and all four
vectors are naturals bounded by 100 (hence integers in `[0, 100]`), and
on the empty string it deterministically produces the short-input floors
`ρ = σ = 80, μ = 100, π = 70`, composite 87, PURE CHAOS / rejected. -/
theorem calculateEntropy_total_bounds (m : JsMath) (t : List Char) :
    (calculateEntropy m t).entropyScore ≤ 100 ∧
    (calculateEntropy m t).vectors.compressionRatio ≤ 100 ∧
    (calculateEntropy m t).vectors.ambiguityDensity ≤ 100 ∧
    (calculateEntropy m t).vectors.specificityMass ≤ 100 ∧
    (calculateEntropy m t).vectors.structuralIntegrity ≤ 100 ∧
    calculateEntropy m [] =
      { entropyScore := 87,
        vectors := { compressionRatio := 80, ambiguityDensity := 80,
                     specificityMass := 100, structuralIntegrity := 70 },
        flightStatus := .rejected, flightLabel := .pureChaos,
        confidence := 13/100 } :=
  ⟨entropyScore_le m t, calcCompressionRatio_le m t, calcAmbiguityDensity_le m t,
   calcSpecificityMass_le t, calcStructuralIntegrity_le t, by
    have hr : calcCompressionRatio m [] = 80 := by simp [calcCompressionRatio]
    have hs : calcAmbiguityDensity m [] = 80 := by simp [calcAmbiguityDensity]
    have hu : calcSpecificityMass [] = 100 := by simp [calcSpecificityMass, splitWs]
    have hp : calcStructuralIntegrity [] = 70 := by
      simp [calcStructuralIntegrity, splitWs]
    unfold calculateEntropy
    dsimp only
    rw [hr, hs, hu, hp]
    norm_num [classifyStatus, classifyLabel, MEAResult.mk.injEq,
      EntropyVectors.mk.injEq, clampQ_of_mem (by norm_num : (0:ℚ) ≤ 13/100)
        (by norm_num : (13:ℚ)/100 ≤ 1)]⟩

/-- C8: the fixed short-input floors of the four scorers: texts shorter
than 10 characters compress-score exactly 80, texts shorter than 5
characters ambiguity-score exactly 80, an empty word list
specificity-scores exactly 100, and fewer than 10 words
structure-score exactly 70. -/
theorem scorer_short_input_floors :
    (∀ (m : JsMath) (t : List Char), t.length < 10 → calcCompressionRatio m t = 80) ∧
    (∀ (m : JsMath) (t : List Char), t.length < 5 → calcAmbiguityDensity m t = 80) ∧
    (∀ t : List Char, splitWs t = [] → calcSpecificityMass t = 100) ∧
    (∀ t : List Char, (splitWs t).length < 10 → calcStructuralIntegrity t = 70) := by
  refine ⟨fun m t h => ?_, fun m t h => ?_, fun t h => ?_, fun t h => ?_⟩
  · simp [calcCompressionRatio, h]
  · simp [calcAmbiguityDensity, h]
  · simp [calcSpecificityMass, h]
  · simp [calcStructuralIntegrity, h]

theorem scorer_short_input_floors_witness :
    (("abc".toList).length < 10 ∧ calcCompressionRatio jsMathActual ("abc".toList) = 80) ∧
    (("abc".toList).length < 5 ∧ calcAmbiguityDensity jsMathActual ("abc".toList) = 80) ∧
    (splitWs ("  ".toList) = [] ∧ calcSpecificityMass ("  ".toList) = 100) ∧
    ((splitWs ("a b".toList)).length < 10 ∧ calcStructuralIntegrity ("a b".toList) = 70) :=
  ⟨⟨by decide, scorer_short_input_floors.1 jsMathActual _ (by decide)⟩,
   ⟨by decide, scorer_short_input_floors.2.1 jsMathActual _ (by decide)⟩,
   ⟨by decide, scorer_short_input_floors.2.2.1 _ (by decide)⟩,
   ⟨by decide, scorer_short_input_floors.2.2.2 _ (by decide)⟩⟩

end Mach

namespace Mach

/-!
 ## C4 — vague-response override and deck-card emission
-/

/-- C4 (counterexample to the claim as stated): with no vague marker in
the plan, an effective status that is not turbulent, but no resolvable
`owner_id`, `processMission` skips `generateDeckCards`, so "a deck card
is emitted exactly when the effective status is not turbulent" fails. -/
theorem deck_card_requires_owner_cex :
    ¬(deckCardEmitted (effectiveStatus .approved (isVagueResponse planPlain)) false = true ↔
      effectiveStatus .approved (isVagueResponse planPlain) ≠ .turbulent) := by
  decide

/-- C4 (amended): if the generated plan carries a vague marker
(case-insensitively), the effective status is forced to turbulent
regardless of the numeric tier and no deck card is emitted; otherwise the
effective status equals the numeric tier and a deck card is emitted
exactly when that status is not turbulent *and* the mission's `owner_id`
was resolved. -/
theorem vague_override_deck_card (plan : List Char) (st : FlightStatus)
    (lab : FlightLabel) (owner : Bool) :
    (isVagueResponse plan = true →
      effectiveStatus st (isVagueResponse plan) = .turbulent ∧
      effectiveLabel lab (isVagueResponse plan) = .turbulent ∧
      deckCardEmitted (effectiveStatus st (isVagueResponse plan)) owner = false) ∧
    (isVagueResponse plan = false →
      effectiveStatus st (isVagueResponse plan) = st ∧
      effectiveLabel lab (isVagueResponse plan) = lab ∧
      (deckCardEmitted (effectiveStatus st (isVagueResponse plan)) owner = true ↔
        st ≠ .turbulent ∧ owner = true)) := by
  constructor
  · intro h
    rw [h]
    refine ⟨rfl, rfl, ?_⟩
    simp [deckCardEmitted, effectiveStatus]
  · intro h
    rw [h]
    refine ⟨rfl, rfl, ?_⟩
    cases st <;> cases owner <;> simp [deckCardEmitted, effectiveStatus]

theorem vague_override_deck_card_witness :
    (isVagueResponse planScrubbed = true ∧
      effectiveStatus .approved (isVagueResponse planScrubbed) = .turbulent ∧
      effectiveLabel .mach1 (isVagueResponse planScrubbed) = .turbulent ∧
      deckCardEmitted (effectiveStatus .approved (isVagueResponse planScrubbed)) true = false) ∧
    (isVagueResponse planPlain = false ∧
      effectiveStatus .approved (isVagueResponse planPlain) = .approved ∧
      effectiveLabel .mach1 (isVagueResponse planPlain) = .mach1 ∧
      (deckCardEmitted (effectiveStatus .approved (isVagueResponse planPlain)) true = true ↔
        (FlightStatus.approved ≠ .turbulent ∧ true = true))) :=
  ⟨⟨by decide, (vague_override_deck_card planScrubbed .approved .mach1 true).1 (by decide)⟩,
   ⟨by decide, (vague_override_deck_card planPlain .approved .mach1 true).2 (by decide)⟩⟩

end Mach

namespace Mach

/-!
 ## Lemmas about `splitNl`, `joinNl` and `chunkCore`
-/

theorem splitNl_ne_nil (t : List Char) : splitNl t ≠ [] := by
  induction t with
  | nil => simp [splitNl]
  | cons c rest ih =>
    rw [splitNl]
    by_cases h : c = '\n'
    · simp [h]
    · simp only [h, if_false]
      cases hsr : splitNl rest with
      | nil => simp
      | cons l ls => simp

theorem splitNl_no_newline (t : List Char) :
    ∀ l ∈ splitNl t, '\n' ∉ l := by
  induction t with
  | nil => simp [splitNl]
  | cons c rest ih =>
    rw [splitNl]
    by_cases h : c = '\n'
    · simp only [h, if_true, List.mem_cons]
      rintro l (rfl | hl)
      · simp
      · exact ih l hl
    · simp only [h, if_false]
      cases hsr : splitNl rest with
      | nil => exact absurd hsr (splitNl_ne_nil rest)
      | cons w ws =>
        intro l hl
        rcases List.mem_cons.mp hl with rfl | hl'
        · have hw := ih w (hsr ▸ List.mem_cons_self w ws)
          simp only [List.mem_cons]
          rintro (rfl | hmem)
          · exact h rfl
          · exact hw hmem
        · exact ih l (hsr ▸ List.mem_cons_of_mem w hl')

theorem joinNl_nil : joinNl [] = [] := by simp [joinNl, List.intercalate]

theorem joinNl_single (a : List Char) : joinNl [a] = a := by
  simp [joinNl, List.intercalate]

theorem joinNl_cons_cons (a b : List Char) (ls : List (List Char)) :
    joinNl (a :: b :: ls) = a ++ '\n' :: joinNl (b :: ls) := by
  simp [joinNl, List.intercalate]

theorem joinNl_cons_ne (a : List Char) {ls : List (List Char)} (h : ls ≠ []) :
    joinNl (a :: ls) = a ++ '\n' :: joinNl ls := by
  cases ls with
  | nil => exact absurd rfl h
  | cons b bs => exact joinNl_cons_cons a b bs

theorem joinNl_splitNl (t : List Char) : joinNl (splitNl t) = t := by
  induction t with
  | nil => simp [splitNl, joinNl_single]
  | cons c rest ih =>
    rw [splitNl]
    by_cases h : c = '\n'
    · rw [if_pos h, joinNl_cons_ne _ (splitNl_ne_nil rest), ih, h]
      simp
    · rw [if_neg h]
      cases hsr : splitNl rest with
      | nil => exact absurd hsr (splitNl_ne_nil rest)
      | cons l ls =>
        rw [hsr] at ih
        cases ls with
        | nil =>
          rw [joinNl_single] at ih
          simp [joinNl_single, ih]
        | cons l' ls' =>
          rw [joinNl_cons_cons] at ih ⊢
          simp [ih]

theorem splitNl_of_no_newline {l : List Char} (h : '\n' ∉ l) :
    splitNl l = [l] := by
  induction l with
  | nil => simp [splitNl]
  | cons c rest ih =>
    rw [splitNl]
    have hc : ¬(c = '\n') := fun hcc => h (hcc ▸ List.mem_cons_self c rest)
    rw [if_neg hc, ih fun hm => h (List.mem_cons_of_mem c hm)]

theorem splitNl_append_newline {l : List Char} (r : List Char)
    (h : '\n' ∉ l) : splitNl (l ++ '\n' :: r) = l :: splitNl r := by
  induction l with
  | nil => simp [splitNl]
  | cons c rest ih =>
    have hc : ¬(c = '\n') := fun hcc => h (hcc ▸ List.mem_cons_self c rest)
    rw [List.cons_append, splitNl, if_neg hc,
      ih fun hm => h (List.mem_cons_of_mem c hm)]

theorem splitNl_joinNl (ls : List (List Char)) (hnl : ∀ l ∈ ls, '\n' ∉ l)
    (hne : ls ≠ []) : splitNl (joinNl ls) = ls := by
  induction ls with
  | nil => exact absurd rfl hne
  | cons l rest ih =>
    cases rest with
    | nil => rw [joinNl_single]; exact splitNl_of_no_newline (hnl l (by simp))
    | cons l' rest' =>
      rw [joinNl_cons_cons, splitNl_append_newline _ (hnl l (by simp)),
        ih (fun x hx => hnl x (List.mem_cons_of_mem l hx)) (by simp)]

theorem joinNl_length (ls : List (List Char)) (h : ls ≠ []) :
    (joinNl ls).length = (ls.map List.length).sum + (ls.length - 1) := by
  induction ls with
  | nil => exact absurd rfl h
  | cons a rest ih =>
    cases rest with
    | nil => simp [joinNl_single]
    | cons b bs =>
      rw [joinNl_cons_cons]
      have := ih (by simp)
      simp only [List.length_append, List.length_cons, this, List.map_cons,
        List.sum_cons]
      omega

theorem chunkCore_ne_nil (M : ℕ) (lines : List (List Char)) :
    ∀ current : List Char, current ≠ [] → chunkCore M lines current ≠ [] := by
  induction lines with
  | nil =>
    intro current hcur
    rw [chunkCore]
    simp [List.isEmpty_iff, hcur]
  | cons line rest ih =>
    intro current hcur
    rw [chunkCore]
    split_ifs with hcond hemp
    · simp
    · exact absurd (List.isEmpty_iff.mp hemp) hcur
    · exact ih _ (by simp [hcur])

theorem chunkCore_mem (M : ℕ) (lines : List (List Char)) :
    ∀ (current c : List Char), c ∈ chunkCore M lines current →
      c.length ≤ M ∨ c ∈ lines ∨ c = current := by
  induction lines with
  | nil =>
    intro current c hc
    rw [chunkCore] at hc
    split_ifs at hc
    · simp at hc
    · simp at hc
      right; right; exact hc
  | cons line rest ih =>
    intro current c hc
    rw [chunkCore] at hc
    split_ifs at hc with hcond hemp
    · rcases List.mem_cons.mp hc with rfl | hc'
      · right; right; rfl
      · rcases ih line c hc' with h | h | rfl
        · left; exact h
        · right; left; exact List.mem_cons_of_mem line h
        · right; left; exact List.mem_cons_self _ _
    · have hcur_nil : current = [] := List.isEmpty_iff.mp hemp
      rw [hcur_nil] at hc
      simp only [List.nil_append] at hc
      rcases ih _ c hc with h | h | rfl
      · left; exact h
      · right; left; exact List.mem_cons_of_mem line h
      · right; left; exact List.mem_cons_self _ _
    · have hcur_pos : 0 < current.length := by
        have : current ≠ [] := fun hn => hemp (by simp [hn])
        exact List.length_pos.mpr this
      have hfit : current.length + line.length + 1 ≤ M := by
        have hnlt : ¬(M < current.length + line.length + 1) :=
          fun hlt => hcond ⟨hlt, hcur_pos⟩
        omega
      rcases ih _ c hc with h | h | rfl
      · left; exact h
      · right; left; exact List.mem_cons_of_mem line h
      · left
        simp only [List.length_append, List.length_cons, List.length_nil]
        omega

end Mach

namespace Mach

theorem joinNl_glue (a b : List Char) (ls : List (List Char)) :
    joinNl ((a ++ '\n' :: b) :: ls) = joinNl (a :: b :: ls) := by
  cases ls with
  | nil => simp [joinNl_single, joinNl_cons_cons]
  | cons x xs => simp [joinNl_cons_cons, List.append_assoc]

theorem chunkCore_join (M : ℕ) (lines : List (List Char)) :
    ∀ current : List Char, current ≠ [] → (∀ l ∈ lines, l ≠ []) →
      joinNl (chunkCore M lines current) = joinNl (current :: lines) := by
  induction lines with
  | nil =>
    intro current hcur _
    rw [chunkCore, if_neg (by simp [List.isEmpty_iff, hcur])]
  | cons line rest ih =>
    intro current hcur hall
    have hline : line ≠ [] := hall line (List.mem_cons_self _ _)
    have hrest : ∀ l ∈ rest, l ≠ [] := fun l hl => hall l (List.mem_cons_of_mem _ hl)
    rw [chunkCore]
    split_ifs with hcond hemp
    · rw [joinNl_cons_ne current (chunkCore_ne_nil M rest line hline),
        ih line hline hrest, joinNl_cons_ne current (by simp)]
    · exact absurd (List.isEmpty_iff.mp hemp) hcur
    · rw [ih (current ++ ['\n'] ++ line) (by simp [hcur]) hrest]
      have heq : current ++ ['\n'] ++ line = current ++ '\n' :: line := by simp
      rw [heq, joinNl_glue]

theorem chunkCore_size (M : ℕ) (lines : List (List Char))
    (hl : ∀ l ∈ lines, l.length ≤ M) (current : List Char)
    (hc : current.length ≤ M) :
    ∀ c ∈ chunkCore M lines current, c.length ≤ M := by
  intro c hmem
  rcases chunkCore_mem M lines current c hmem with h | h | rfl
  · exact h
  · exact hl c h
  · exact hc

theorem chunkCore_nil_start (M : ℕ) (l : List Char) (rest : List (List Char)) :
    chunkCore M (l :: rest) [] = chunkCore M rest l := by
  rw [chunkCore]
  simp

/-!
 ## C9 and C6 — chunking invariants
-/

/-- C9: every chunk that contains a newline (was assembled from two or
more input lines) respects the `maxChars` budget; a chunk can exceed the
budget only by being one of the input lines verbatim — lines are never
split across chunks. -/
theorem chunk_invariant (text : List Char) (maxChars : ℕ) (c : List Char)
    (hc : c ∈ chunkText text maxChars) :
    ('\n' ∈ c → c.length ≤ maxChars) ∧
    (maxChars < c.length → c ∈ splitNl text) := by
  unfold chunkText at hc
  split_ifs at hc with hle
  · simp only [List.mem_singleton] at hc
    subst hc
    exact ⟨fun _ => hle, fun hgt => absurd hle (by omega)⟩
  · rcases chunkCore_mem maxChars (splitNl text) [] c hc with h | h | rfl
    · exact ⟨fun _ => h, fun hgt => absurd h (by omega)⟩
    · exact ⟨fun hnl => absurd hnl (splitNl_no_newline text c h), fun _ => h⟩
    · exact ⟨fun hnl => by simp at hnl, fun hgt => by simp at hgt⟩

theorem chunk_invariant_witness :
    ("aaaa".toList ∈ chunkText ("aaaa\nbb".toList) 3) ∧
    ('\n' ∈ "aaaa".toList → ("aaaa".toList).length ≤ 3) ∧
    (3 < ("aaaa".toList).length → "aaaa".toList ∈ splitNl ("aaaa\nbb".toList)) := by
  have hmem : "aaaa".toList ∈ chunkText ("aaaa\nbb".toList) 3 := by decide
  have h := chunk_invariant ("aaaa\nbb".toList) 3 ("aaaa".toList) hmem
  exact ⟨hmem, h.1, h.2⟩

/-- C6 (counterexample to the claim as stated): a 10,000-character input
that is a single newline-free line yields one chunk of 10,000 characters,
so neither "at least 5 chunks" nor "none exceeding 2,000 characters"
holds for *every* 10,000-character input. -/
theorem chunkText_single_long_line_cex :
    longLineText.length = 10000 ∧
    ¬(5 ≤ (chunkText longLineText 2000).length ∧
      ∀ c ∈ chunkText longLineText 2000, c.length ≤ 2000) := by
  have hlen : longLineText.length = 10000 := by
    unfold longLineText
    exact List.length_replicate 10000 'a'
  have hnempty : longLineText ≠ [] := List.length_pos.mp (by omega)
  have hnl : '\n' ∉ longLineText := by
    unfold longLineText
    intro h
    exact absurd (List.eq_of_mem_replicate h) (by decide)
  have hchunks : chunkText longLineText 2000 = [longLineText] := by
    unfold chunkText
    rw [if_neg (by omega), splitNl_of_no_newline hnl, chunkCore_nil_start,
      chunkCore, if_neg (by simp [List.isEmpty_iff, hnempty])]
  refine ⟨hlen, ?_⟩
  rintro ⟨h5, _⟩
  rw [hchunks] at h5
  simp at h5

/-- C6 (amended): for every 10,000-character input whose newline-split
lines are all nonempty and within the 2,000-character budget (budget
excluded, i.e. at most 1,999 characters), `chunkText` yields at least 5
chunks, none exceeding 2,000 characters, and joining the chunks with
newlines reproduces the input exactly; moreover any input not exceeding
the budget is returned as a single chunk. -/
theorem chunkText_budget_partition (text : List Char)
    (hlen : text.length = 10000)
    (hlines : ∀ l ∈ splitNl text, l ≠ [] ∧ l.length ≤ 1999) :
    5 ≤ (chunkText text 2000).length ∧
    (∀ c ∈ chunkText text 2000, c.length ≤ 2000) ∧
    joinNl (chunkText text 2000) = text ∧
    (∀ u : List Char, u.length ≤ 2000 → chunkText u 2000 = [u]) := by
  have hgt : ¬(text.length ≤ 2000) := by omega
  have hsne := splitNl_ne_nil text
  obtain ⟨l, rest, hsplit⟩ : ∃ l rest, splitNl text = l :: rest := by
    cases hs : splitNl text with
    | nil => exact absurd hs hsne
    | cons a as => exact ⟨a, as, rfl⟩
  have hchunks : chunkText text 2000 = chunkCore 2000 rest l := by
    unfold chunkText
    rw [if_neg hgt, hsplit, chunkCore_nil_start]
  have hl : l ≠ [] ∧ l.length ≤ 1999 := hlines l (hsplit ▸ List.mem_cons_self _ _)
  have hrest : ∀ x ∈ rest, x ≠ [] ∧ x.length ≤ 1999 := fun x hx =>
    hlines x (hsplit ▸ List.mem_cons_of_mem _ hx)
  have hjoin : joinNl (chunkText text 2000) = text := by
    rw [hchunks, chunkCore_join 2000 rest l hl.1 (fun x hx => (hrest x hx).1),
      ← hsplit, joinNl_splitNl]
  have hsize : ∀ c ∈ chunkText text 2000, c.length ≤ 2000 := by
    rw [hchunks]
    exact chunkCore_size 2000 rest (fun x hx => le_trans (hrest x hx).2 (by norm_num))
      l (le_trans hl.2 (by norm_num))
  have hne : chunkText text 2000 ≠ [] := by
    rw [hchunks]; exact chunkCore_ne_nil 2000 rest l hl.1
  refine ⟨?_, hsize, hjoin, fun u hu => by unfold chunkText; rw [if_pos hu]⟩
  by_contra hlt
  push_neg at hlt
  have hlen2 := joinNl_length (chunkText text 2000) hne
  rw [hjoin, hlen] at hlen2
  have hsum : ((chunkText text 2000).map List.length).sum ≤
      (chunkText text 2000).length * 2000 := by
    have := List.sum_le_card_nsmul ((chunkText text 2000).map List.length) 2000
      (fun x hx => by
        obtain ⟨c, hc, rfl⟩ := List.mem_map.mp hx
        exact hsize c hc)
    simpa [smul_eq_mul, List.length_map] using this
  have hpos : 1 ≤ (chunkText text 2000).length := List.length_pos.mpr hne
  omega

theorem chunkText_budget_partition_witness :
    chunkWitnessText.length = 10000 ∧
    (∀ l ∈ splitNl chunkWitnessText, l ≠ [] ∧ l.length ≤ 1999) ∧
    5 ≤ (chunkText chunkWitnessText 2000).length ∧
    (∀ c ∈ chunkText chunkWitnessText 2000, c.length ≤ 2000) ∧
    joinNl (chunkText chunkWitnessText 2000) = chunkWitnessText := by
  have hrep : ∀ l ∈ List.replicate 73 (List.replicate 136 'x'), '\n' ∉ l := by
    intro l hl
    rw [List.eq_of_mem_replicate hl]
    simp [List.mem_replicate]
  have hsplit : splitNl chunkWitnessText = List.replicate 73 (List.replicate 136 'x') := by
    unfold chunkWitnessText
    exact splitNl_joinNl _ hrep (by simp)
  have h1 : chunkWitnessText.length = 10000 := by
    unfold chunkWitnessText
    rw [joinNl_length _ (by simp)]
    simp [List.map_replicate, List.sum_replicate]
  have h2 : ∀ l ∈ splitNl chunkWitnessText, l ≠ [] ∧ l.length ≤ 1999 := by
    rw [hsplit]
    intro l hl
    rw [List.eq_of_mem_replicate hl]
    constructor
    · exact List.length_pos.mp (by simp)
    · simp
  have h := chunkText_budget_partition chunkWitnessText h1 h2
  exact ⟨h1, h2, h.1, h.2.1, h.2.2.1⟩

end Mach

namespace Mach

/-!
 ## C7 and C10 — repository ingestion
-/

/-- Dichotomy for one `ingestGitHubRepo` call: either the store and the
embed-call counter are untouched, or the URL parsed, a nonempty chunk
list — every chunk tagged with the parsed repo key — was appended, and
`embedAndStore` ran exactly once. -/
theorem ingest_cases (env : IngestEnv) (url : List Char) (st : IngestState) :
    ((ingestGitHubRepo env url st).store = st.store ∧
      (ingestGitHubRepo env url st).embedCalls = st.embedCalls) ∨
    (∃ owner repo chunks, parseGitHubUrl url = some (owner, repo) ∧ chunks ≠ [] ∧
      (∀ c ∈ chunks, c.repo = some (owner ++ '/' :: stripGitSuffix repo)) ∧
      (ingestGitHubRepo env url st).store = st.store ++ chunks ∧
      (ingestGitHubRepo env url st).embedCalls = st.embedCalls + 1) := by
  unfold ingestGitHubRepo
  cases hp : parseGitHubUrl url with
  | none => exact Or.inl ⟨rfl, rfl⟩
  | some pr =>
    obtain ⟨owner, repo⟩ := pr
    dsimp only
    split_ifs with hing
    · exact Or.inl ⟨rfl, rfl⟩
    · cases htree : env.tree with
      | error e => exact Or.inl ⟨rfl, rfl⟩
      | ok entries =>
        dsimp only
        split_ifs with hempty
        · exact Or.inl ⟨rfl, rfl⟩
        · refine Or.inr ⟨owner, repo, _, rfl, ?_, ?_, rfl, rfl⟩
          · simpa [List.isEmpty_iff] using hempty
          · intro c hc
            rcases List.mem_append.mp hc with hcode | hdoc
            · obtain ⟨f, _, hcf⟩ := List.mem_flatMap.mp hcode
              cases hfc : env.fileContent f.path with
              | none => rw [hfc] at hcf; simp at hcf
              | some content =>
                rw [hfc] at hcf
                obtain ⟨ch, _, rfl⟩ := List.mem_map.mp hcf
                rfl
            · cases hrd : env.readme with
              | none => rw [hrd] at hdoc; simp at hdoc
              | some content =>
                rw [hrd] at hdoc
                obtain ⟨ch, _, rfl⟩ := List.mem_map.mp hdoc
                rfl

/-- C7 (counterexample to the claim as stated): if the second call's
dedup `select` errors, `isRepoIngested` deliberately reports `false` and
the repo is re-fetched and re-embedded, so `embedAndStore` runs twice for
two sequential calls on the same URL. -/
theorem ingest_dedup_error_double_embed_cex :
    (ingestGitHubRepo ingestEnvDedupError ghUrl
      (ingestGitHubRepo ingestEnvOk ghUrl ingestSt0)).embedCalls = 2 := by
  decide

/-- C7 (amended): for two sequential `ingestGitHubRepo` calls with the
same URL, provided the second call's dedup lookup query does not error,
the embedding/store call is performed at most once in total; and if the
first call embedded, the second call returns straight after the
`isRepoIngested` check with the state untouched — no duplicate chunks. -/
theorem ingest_idempotent (env1 env2 : IngestEnv) (url : List Char)
    (st : IngestState) (h2 : env2.dedupQueryError = false) :
    (ingestGitHubRepo env2 url (ingestGitHubRepo env1 url st)).embedCalls ≤
      st.embedCalls + 1 ∧
    ((ingestGitHubRepo env1 url st).embedCalls = st.embedCalls + 1 →
      ingestGitHubRepo env2 url (ingestGitHubRepo env1 url st) =
        ingestGitHubRepo env1 url st) := by
  rcases ingest_cases env1 url st with ⟨hs1, he1⟩ |
    ⟨owner, repo, chunks, hp, hne, hrepo, hs1, he1⟩
  · constructor
    · rcases ingest_cases env2 url (ingestGitHubRepo env1 url st) with ⟨_, he2⟩ |
        ⟨_, _, _, _, _, _, _, he2⟩ <;> omega
    · intro habs
      omega
  · have hskip : ingestGitHubRepo env2 url (ingestGitHubRepo env1 url st) =
        ingestGitHubRepo env1 url st := by
      conv_lhs => rw [ingestGitHubRepo]
      rw [hp]
      dsimp only
      have hing : isRepoIngested (ingestGitHubRepo env1 url st).store
          (owner ++ '/' :: stripGitSuffix repo) env2.dedupQueryError = true := by
        unfold isRepoIngested
        rw [h2, if_neg (by simp)]
        obtain ⟨c0, hc0⟩ := List.exists_mem_of_ne_nil chunks hne
        refine List.any_eq_true.mpr ⟨c0, ?_, ?_⟩
        · rw [hs1]
          exact List.mem_append_right _ hc0
        · simp [hrepo c0 hc0]
      rw [hing]
      simp
    exact ⟨by rw [hskip]; omega, fun _ => hskip⟩

theorem ingest_idempotent_witness :
    ingestEnvOk.dedupQueryError = false ∧
    (ingestGitHubRepo ingestEnvOk ghUrl ingestSt0).embedCalls =
      ingestSt0.embedCalls + 1 ∧
    (ingestGitHubRepo ingestEnvOk ghUrl
      (ingestGitHubRepo ingestEnvOk ghUrl ingestSt0)).embedCalls ≤
      ingestSt0.embedCalls + 1 ∧
    ingestGitHubRepo ingestEnvOk ghUrl
        (ingestGitHubRepo ingestEnvOk ghUrl ingestSt0) =
      ingestGitHubRepo ingestEnvOk ghUrl ingestSt0 :=
  ⟨rfl, by decide,
   (ingest_idempotent ingestEnvOk ingestEnvOk ghUrl ingestSt0 rfl).1,
   (ingest_idempotent ingestEnvOk ingestEnvOk ghUrl ingestSt0 rfl).2 (by decide)⟩

/-- C10: a `repoUrl` that does not match the `github.com/<owner>/<repo>`
pattern makes `ingestGitHubRepo` resolve immediately: no tree or file
fetch, no embedding, and the vector store state is unchanged. -/
theorem ingest_invalid_url_noop (env : IngestEnv) (url : List Char)
    (st : IngestState) (h : parseGitHubUrl url = none) :
    ingestGitHubRepo env url st = st := by
  unfold ingestGitHubRepo
  rw [h]

theorem ingest_invalid_url_noop_witness :
    parseGitHubUrl nonGhUrl = none ∧
    ingestGitHubRepo ingestEnvOk nonGhUrl ingestSt0 = ingestSt0 :=
  ⟨by decide, ingest_invalid_url_noop ingestEnvOk nonGhUrl ingestSt0 (by decide)⟩

end Mach

namespace Mach

/-!
 ## C5 — `traceIntent` fail-open behaviour
-/

/-- C5 (counterexample to the claim as stated): an exception in the
entity-extraction oracle call is caught *inside* `extractEntities` and
falls back to the word heuristic — it does not force CLEAN, so a
collision can still be reported even though a reasoning-oracle call
threw. -/
theorem traceIntent_entity_throw_collision_cex :
    traceEnvEntityThrow.entityResp = .error () ∧
    traceIntent traceEnvEntityThrow btObjective ≠ .clean := by
  exact ⟨rfl, by decide⟩

/-- C5 (amended): `traceIntent` always resolves (it is a total function
of the collaborator outcomes) and returns CLEAN whenever the store probe
returns zero chunks or throws, whenever either similarity search or the
adjudication oracle call throws, and whenever the adjudication reply has
no brace-delimited JSON object, `JSON.parse` throws on it, or the parsed
object lacks any of the required COLLISION fields (status, source,
snippet, reason — empty strings counting as absent).  An exception in
the entity-extraction call alone is caught internally, falls back to a
word heuristic, and does not by itself force CLEAN. -/
theorem traceIntent_fail_open (env : TraceEnv) (objective : List Char) :
    (env.probe = .ok [] → traceIntent env objective = .clean) ∧
    (env.probe = .error () → traceIntent env objective = .clean) ∧
    (env.codeSearch = .error () → traceIntent env objective = .clean) ∧
    (env.docSearch = .error () → traceIntent env objective = .clean) ∧
    (env.auditorResp = .error () → traceIntent env objective = .clean) ∧
    (∀ text, env.auditorResp = .ok text → spanMatch '{' '}' text = none →
      traceIntent env objective = .clean) ∧
    (∀ text sub, env.auditorResp = .ok text → spanMatch '{' '}' text = some sub →
      env.auditJson sub = .error () → traceIntent env objective = .clean) ∧
    (∀ text sub p, env.auditorResp = .ok text → spanMatch '{' '}' text = some sub →
      env.auditJson sub = .ok p →
      (p.status ≠ some ("COLLISION".toList) ∨ truthyStr p.source = false ∨
        truthyStr p.snippet = false ∨ truthyStr p.reason = false) →
      traceIntent env objective = .clean) := by
  refine ⟨?_, ?_, ?_, ?_, ?_, ?_, ?_, ?_⟩
  · intro h
    unfold traceIntent checkVectorStoreHasData
    rw [h]
    simp
  · intro h
    unfold traceIntent checkVectorStoreHasData
    rw [h]
    simp
  · intro h
    unfold traceIntent
    rw [h]
    cases hp : checkVectorStoreHasData env <;> simp
  · intro h
    unfold traceIntent
    rw [h]
    cases hp : checkVectorStoreHasData env <;> cases hc : env.codeSearch <;> simp
  · intro h
    unfold traceIntent
    rw [h]
    cases hp : checkVectorStoreHasData env <;> cases hc : env.codeSearch <;>
      cases hd : env.docSearch <;> simp
  · intro text hresp hspan
    unfold traceIntent
    rw [hresp]
    cases hp : checkVectorStoreHasData env <;> cases hc : env.codeSearch <;>
      cases hd : env.docSearch <;> simp [parseAuditorResponse, hspan]
  · intro text sub hresp hspan hjson
    unfold traceIntent
    rw [hresp]
    cases hp : checkVectorStoreHasData env <;> cases hc : env.codeSearch <;>
      cases hd : env.docSearch <;> simp [parseAuditorResponse, hspan, hjson]
  · intro text sub p hresp hspan hjson hbad
    unfold traceIntent
    rw [hresp]
    cases hp : checkVectorStoreHasData env <;> cases hc : env.codeSearch <;>
      cases hd : env.docSearch <;> simp [parseAuditorResponse, hspan, hjson] <;>
      (intro hctx h1 h2 h3
       rcases hbad with h | h | h | h
       · exact absurd h1 h
       · rw [h2] at h; exact Bool.noConfusion h
       · rw [h3] at h; exact Bool.noConfusion h
       · exact h)

theorem traceIntent_fail_open_witness :
    (traceEnvEmptyStore.probe = .ok [] ∧
      traceIntent traceEnvEmptyStore btObjective = .clean) ∧
    (traceEnvSearchThrow.codeSearch = .error () ∧
      traceIntent traceEnvSearchThrow btObjective = .clean) ∧
    (traceEnvAuditorThrow.auditorResp = .error () ∧
      traceIntent traceEnvAuditorThrow btObjective = .clean) ∧
    (spanMatch '{' '}' ("plain prose, no json".toList) = none ∧
      traceIntent traceEnvNoJson btObjective = .clean) ∧
    (truthyStr (AuditFields.snippet
        { status := some ("COLLISION".toList), source := some ("a.ts".toList),
          snippet := none, reason := some ("dup".toList) }) = false ∧
      traceIntent traceEnvMissingField btObjective = .clean) :=
  ⟨⟨rfl, (traceIntent_fail_open traceEnvEmptyStore btObjective).1 rfl⟩,
   ⟨rfl, (traceIntent_fail_open traceEnvSearchThrow btObjective).2.2.1 rfl⟩,
   ⟨rfl, (traceIntent_fail_open traceEnvAuditorThrow btObjective).2.2.2.2.1 rfl⟩,
   ⟨by decide, (traceIntent_fail_open traceEnvNoJson btObjective).2.2.2.2.2.1
      ("plain prose, no json".toList) rfl (by decide)⟩,
   ⟨rfl, (traceIntent_fail_open traceEnvMissingField btObjective).2.2.2.2.2.2.2
      ("\x7b \"status\": \"COLLISION\" \x7d".toList)
      ("\x7b \"status\": \"COLLISION\" \x7d".toList)
      { status := some ("COLLISION".toList), source := some ("a.ts".toList),
        snippet := none, reason := some ("dup".toList) }
      rfl (by decide) rfl (Or.inr (Or.inr (Or.inl rfl)))⟩⟩

end Mach

namespace Mach

/-!
 ## C3 — the "Build a thing" scenario
-/

theorem clampQ_nonpos100 {x : ℚ} (h : x ≤ 0) : clampQ 0 100 x = 0 := by
  unfold clampQ qmax qmin
  split_ifs <;> linarith

/-- At "Build a thing" (13 UTF-8 bytes) any deflate output of at least
13 bytes makes the compression ratio nonpositive, so ρ clamps to 0.
(`zlib` output for a 13-byte input is always larger than 13 bytes: the
header and checksum alone are 6 bytes and the 12 distinct literals are
incompressible; the real value is 21.) -/
theorem compressionRatio_bt (m : JsMath) (hd : 13 ≤ m.deflateLen btObjective) :
    calcCompressionRatio m btObjective = 0 := by
  unfold calcCompressionRatio
  rw [if_neg (by decide)]
  dsimp only
  have hutf : ((utf8Len btObjective : ℕ) : ℚ) = 13 := by
    have h13 : utf8Len btObjective = 13 := by decide
    exact_mod_cast h13
  rw [hutf]
  have hc : (13 : ℚ) ≤ (m.deflateLen btObjective : ℚ) := by exact_mod_cast hd
  have hr : (1 : ℚ) ≤ (m.deflateLen btObjective : ℚ) / 13 := by
    rw [le_div_iff₀ (by norm_num : (0:ℚ) < 13)]
    linarith
  have hnp : (1 - (m.deflateLen btObjective : ℚ) / 13) * 125 ≤ 0 := by nlinarith
  rw [clampQ_nonpos100 hnp]
  have h0 : jsRound 0 = 0 := by
    rw [jsRound_eq_floor]
    norm_num
  rw [h0]
  rfl

/-- At "Build a thing" the character histogram is nine singletons and two
pairs over 13 characters, so `H = log2 13 - 4/13 ≈ 3.3927`; any `Math.log2`
accurate to `10⁻³` at `1/13` and `2/13` puts `(5 - H) * 50` in
`(80.33, 80.39)`, which rounds to σ = 80. -/
theorem ambiguityDensity_bt (m : JsMath)
    (h1a : -(3701/1000 : ℚ) ≤ m.log2 (1/13)) (h1b : m.log2 (1/13) ≤ -(37/10 : ℚ))
    (h2a : -(2701/1000 : ℚ) ≤ m.log2 (2/13)) (h2b : m.log2 (2/13) ≤ -(27/10 : ℚ)) :
    calcAmbiguityDensity m btObjective = 80 := by
  unfold calcAmbiguityDensity
  rw [if_neg (by decide)]
  dsimp only
  have hcc : charCounts (btObjective.map jsToLower) =
      [('b', 1), ('u', 1), ('i', 2), ('l', 1), ('d', 1), (' ', 2), ('a', 1),
       ('t', 1), ('h', 1), ('n', 1), ('g', 1)] := by decide
  have hlen : (((btObjective.map jsToLower).length : ℕ) : ℚ) = 13 := by
    have h13 : (btObjective.map jsToLower).length = 13 := by decide
    exact_mod_cast h13
  rw [hcc, hlen]
  have hsum : ([('b', 1), ('u', 1), ('i', 2), ('l', 1), ('d', 1), (' ', 2),
      ('a', 1), ('t', 1), ('h', 1), ('n', 1), ('g', 1)].map
      (fun pr : Char × ℕ =>
        if 0 < ((pr.2 : ℚ) / 13) then -(((pr.2 : ℚ) / 13) * m.log2 ((pr.2 : ℚ) / 13))
        else 0)).sum =
      -(9/13 * m.log2 (1/13)) - 4/13 * m.log2 (2/13) := by
    simp only [List.map_cons, List.map_nil, List.sum_cons, List.sum_nil]
    norm_num
    ring
  rw [hsum]
  rw [clampQ_of_mem (by linarith) (by linarith), jsRound_eq_floor]
  have hfl : ⌊(5 - (-(9/13 * m.log2 (1/13)) - 4/13 * m.log2 (2/13))) * 50 + 1/2⌋ =
      (80 : ℤ) := by
    rw [Int.floor_eq_iff]
    constructor
    · push_cast
      linarith
    · push_cast
      linarith
  rw [hfl]
  rfl

/-- C3 (counterexample to the claim as stated): with the real collaborator
values (deflate length 21, `Math.log2` within `10⁻⁴`), "Build a thing"
scores 63 — high `specificityMass` (100) and `structuralIntegrity` (70),
but the composite is *not* above 75, and the tier is TURBULENT, not
PURE CHAOS / rejected. -/
theorem buildAThing_not_pure_chaos_cex :
    (calculateEntropy jsMathActual btObjective).entropyScore = 63 ∧
    ¬(75 < (calculateEntropy jsMathActual btObjective).entropyScore ∧
      (calculateEntropy jsMathActual btObjective).flightLabel = .pureChaos ∧
      (calculateEntropy jsMathActual btObjective).flightStatus = .rejected) := by
  with_unfolding_all decide

/-- C3 (amended): for the objective "Build a thing", `specificityMass`
scores 100 and `structuralIntegrity` 70 (both high / bad), and — for any
deflate output of at least 13 bytes and any `Math.log2` within `10⁻³` of
the true values at `1/13` and `2/13` — the composite score is exactly 63,
landing in TURBULENT (46..75), not PURE CHAOS; because the effective
status is turbulent, no deck card is emitted downstream even when plan
generation succeeds, whatever the vague-marker check and owner lookup
yield. -/
theorem buildAThing_turbulent_no_deck_card (m : JsMath)
    (hd : 13 ≤ m.deflateLen btObjective)
    (h1a : -(3701/1000 : ℚ) ≤ m.log2 (1/13)) (h1b : m.log2 (1/13) ≤ -(37/10 : ℚ))
    (h2a : -(2701/1000 : ℚ) ≤ m.log2 (2/13)) (h2b : m.log2 (2/13) ≤ -(27/10 : ℚ)) :
    (calculateEntropy m btObjective).vectors.specificityMass = 100 ∧
    (calculateEntropy m btObjective).vectors.structuralIntegrity = 70 ∧
    (calculateEntropy m btObjective).entropyScore = 63 ∧
    45 < (calculateEntropy m btObjective).entropyScore ∧
    (calculateEntropy m btObjective).entropyScore ≤ 75 ∧
    (calculateEntropy m btObjective).flightLabel = .turbulent ∧
    (calculateEntropy m btObjective).flightStatus = .turbulent ∧
    (∀ (vague owner : Bool), deckCardEmitted
      (effectiveStatus (calculateEntropy m btObjective).flightStatus vague)
      owner = false) := by
  have hmu : calcSpecificityMass btObjective = 100 := by with_unfolding_all decide
  have hpi : calcStructuralIntegrity btObjective = 70 := by with_unfolding_all decide
  have hrho := compressionRatio_bt m hd
  have hsig := ambiguityDensity_bt m h1a h1b h2a h2b
  have hscore : (calculateEntropy m btObjective).entropyScore = 63 := by
    show (30 * calcCompressionRatio m btObjective +
      15 * calcAmbiguityDensity m btObjective + 40 * calcSpecificityMass btObjective +
      15 * calcStructuralIntegrity btObjective + 50) / 100 = 63
    rw [hrho, hsig, hmu, hpi]
  have hlab : (calculateEntropy m btObjective).flightLabel = .turbulent := by
    have h := congrArg classifyLabel hscore
    exact h.trans (by decide)
  have hstat : (calculateEntropy m btObjective).flightStatus = .turbulent := by
    have h := congrArg classifyStatus hscore
    exact h.trans (by decide)
  refine ⟨hmu, hpi, hscore, by omega, by omega, hlab, hstat, ?_⟩
  intro vague owner
  rw [hstat]
  cases vague <;> simp [effectiveStatus, deckCardEmitted]

theorem buildAThing_turbulent_witness :
    13 ≤ jsMathActual.deflateLen btObjective ∧
    -(3701/1000 : ℚ) ≤ jsMathActual.log2 (1/13) ∧
    jsMathActual.log2 (1/13) ≤ -(37/10 : ℚ) ∧
    -(2701/1000 : ℚ) ≤ jsMathActual.log2 (2/13) ∧
    jsMathActual.log2 (2/13) ≤ -(27/10 : ℚ) ∧
    (calculateEntropy jsMathActual btObjective).entropyScore = 63 ∧
    (calculateEntropy jsMathActual btObjective).flightLabel = .turbulent ∧
    deckCardEmitted (effectiveStatus
      (calculateEntropy jsMathActual btObjective).flightStatus false) true = false :=
  ⟨by decide, by with_unfolding_all decide, by with_unfolding_all decide,
   by with_unfolding_all decide, by with_unfolding_all decide,
   (buildAThing_turbulent_no_deck_card jsMathActual (by decide)
     (by with_unfolding_all decide) (by with_unfolding_all decide)
     (by with_unfolding_all decide) (by with_unfolding_all decide)).2.2.1,
   (buildAThing_turbulent_no_deck_card jsMathActual (by decide)
     (by with_unfolding_all decide) (by with_unfolding_all decide)
     (by with_unfolding_all decide) (by with_unfolding_all decide)).2.2.2.2.2.1,
   (buildAThing_turbulent_no_deck_card jsMathActual (by decide)
     (by with_unfolding_all decide) (by with_unfolding_all decide)
     (by with_unfolding_all decide) (by with_unfolding_all decide)).2.2.2.2.2.2.2
     false true⟩

end Mach
